import Mathlib

/-!
Verification of the AI travel assistant's decision engine.

Python strings are modelled as lists of characters (`PyStr`), so that the
string operations used by the source (`split(":", 1)`, `strip()`, `lower()`,
`split(", ")`, substring tests, concatenation) become executable Lean
functions amenable to induction.
-/

abbrev PyStr := List Char

/-- `str.strip()`: drop whitespace from both ends. -/
def pyStrip (s : PyStr) : PyStr :=
  ((s.dropWhile Char.isWhitespace).reverse.dropWhile Char.isWhitespace).reverse

/-- `str.lower()`. -/
def pyLower (s : PyStr) : PyStr := s.map Char.toLower

/-- `item.split(":", 1)` when `":" in item`: the part before the first colon
and the part after it; `none` when the string has no colon. -/
def splitColon1 : PyStr → Option (PyStr × PyStr)
  | [] => none
  | c :: rest =>
    if c = ':' then some ([], rest)
    else
      match splitColon1 rest with
      | none => none
      | some (k, v) => some (c :: k, v)

/-- `value.split(", ")`: split on the two-character separator, scanning left
to right with non-overlapping matches, exactly as Python does. -/
def splitCommaSpace : PyStr → List PyStr
  | [] => [[]]
  | [c] => [[c]]
  | c1 :: c2 :: rest =>
    if c1 = ',' ∧ c2 = ' ' then [] :: splitCommaSpace rest
    else
      match splitCommaSpace (c2 :: rest) with
      | [] => [[c1]]
      | h :: t => (c1 :: h) :: t

section MergeStore

/-!
## Fact Merge Store — `GlobalContextStorage._merge_context_arrays`
(src/core/redis_storage.py, lines 105–158)

The Python code parses the existing fragments into an insertion-ordered
dict of `key → value` (non-keyed items go to `remaining_items`), folds the
new fragments into that state, and renders the state back to
`"key: value"` strings followed by the remaining free-text items.
-/

/-- Insertion-ordered dict: replace the value in place when the key is
present (Python dict assignment keeps the key's position), append otherwise. -/
def setKey : List (PyStr × PyStr) → PyStr → PyStr → List (PyStr × PyStr)
  | [], k, v => [(k, v)]
  | (k', v') :: rest, k, v =>
    if k' = k then (k, v) :: rest else (k', v') :: setKey rest k v

def getKey : List (PyStr × PyStr) → PyStr → Option PyStr
  | [], _ => none
  | (k', v') :: rest, k => if k' = k then some v' else getKey rest k

/-- The intermediate state of `_merge_context_arrays`: the ordered
`existing_dict` and the `remaining_items` list. -/
structure MergeState where
  dict : List (PyStr × PyStr)
  remaining : List PyStr
deriving DecidableEq

/-- One step of the loop `for item in existing`. -/
def parseExistingItem (st : MergeState) (item : PyStr) : MergeState :=
  match splitColon1 item with
  | some (k, v) => { st with dict := setKey st.dict (pyStrip k) (pyStrip v) }
  | none => { st with remaining := st.remaining ++ [item] }

/-- One step of the loop `for item in new`.  The Python guard
`if item and item.strip()` is equivalent to `item.strip() != ""`. -/
def processNewItem (st : MergeState) (item : PyStr) : MergeState :=
  if pyStrip item = [] then st
  else
    match splitColon1 item with
    | some (k, v) =>
      match getKey st.dict (pyStrip k) with
      | some vOld =>
        if pyStrip v ∈ splitCommaSpace vOld then st
        else { st with dict := setKey st.dict (pyStrip k) (vOld ++ [',', ' '] ++ pyStrip v) }
      | none => { st with dict := st.dict ++ [(pyStrip k, pyStrip v)] }
    | none =>
      if item ∈ st.remaining then st
      else { st with remaining := st.remaining ++ [item] }

def parseState (existing : List PyStr) : MergeState :=
  existing.foldl parseExistingItem ⟨[], []⟩

def mergeState (existing new : List PyStr) : MergeState :=
  new.foldl processNewItem (parseState existing)

/-- `f"{key}: {value}"`. -/
def renderKV (kv : PyStr × PyStr) : PyStr := kv.1 ++ [':', ' '] ++ kv.2

/-- `[f"{key}: {value}" for key, value in existing_dict.items()] + remaining_items` -/
def renderState (st : MergeState) : List PyStr :=
  st.dict.map renderKV ++ st.remaining

/-- `GlobalContextStorage._merge_context_arrays`. -/
def mergeContextArrays (existing new : List PyStr) : List PyStr :=
  if new = [] then existing
  else if existing = [] then new
  else renderState (mergeState existing new)

end MergeStore

section StringLemmas

theorem mem_dropWhile_of_not {p : Char → Bool} {l : PyStr} {c : Char}
    (hc : c ∈ l) (hp : p c = false) : c ∈ l.dropWhile p := by
  induction l with
  | nil => cases hc
  | cons a t ih =>
    by_cases ha : p a = true
    · rcases List.mem_cons.1 hc with rfl | hct
      · rw [ha] at hp; cases hp
      · simpa [List.dropWhile, ha] using ih hct
    · simp only [List.dropWhile, Bool.not_eq_true] at ha
      simpa [List.dropWhile, ha] using hc

theorem mem_of_mem_pyStrip {s : PyStr} {c : Char} (h : c ∈ pyStrip s) : c ∈ s := by
  unfold pyStrip at h
  rw [List.mem_reverse] at h
  have h1 := List.dropWhile_suffix (l := (s.dropWhile Char.isWhitespace).reverse)
    Char.isWhitespace
  have h2 := h1.subset h
  rw [List.mem_reverse] at h2
  exact (List.dropWhile_suffix Char.isWhitespace).subset h2

theorem mem_pyStrip_of_not_ws {s : PyStr} {c : Char} (hc : c ∈ s)
    (hw : c.isWhitespace = false) : c ∈ pyStrip s := by
  unfold pyStrip
  rw [List.mem_reverse]
  apply mem_dropWhile_of_not _ hw
  rw [List.mem_reverse]
  exact mem_dropWhile_of_not hc hw

theorem head?_dropWhile {p : Char → Bool} {l : PyStr} {c : Char}
    (h : (l.dropWhile p).head? = some c) : p c = false := by
  induction l with
  | nil => simp [List.dropWhile] at h
  | cons a t ih =>
    by_cases ha : p a = true
    · rw [List.dropWhile_cons_of_pos ha] at h; exact ih h
    · rw [List.dropWhile_cons_of_neg ha] at h
      simp only [List.head?_cons, Option.some.injEq] at h
      subst h
      simpa using ha

theorem dropWhile_eq_self_of_head? {p : Char → Bool} {l : PyStr}
    (h : ∀ c, l.head? = some c → p c = false) : l.dropWhile p = l := by
  cases l with
  | nil => rfl
  | cons a t => exact List.dropWhile_cons_of_neg (by simp [h a rfl])

theorem getLast?_dropWhile {p : Char → Bool} {l : PyStr}
    (h : l.dropWhile p ≠ []) : (l.dropWhile p).getLast? = l.getLast? := by
  rcases List.dropWhile_suffix (l := l) p with ⟨t, ht⟩
  conv_rhs => rw [← ht]
  rw [List.getLast?_append]
  cases hl : (l.dropWhile p).getLast? with
  | none => exact absurd (List.getLast?_eq_none_iff.1 hl) h
  | some c => rfl

theorem pyStrip_head? {s : PyStr} {c : Char}
    (h : (pyStrip s).head? = some c) : c.isWhitespace = false := by
  unfold pyStrip at h
  rw [List.head?_reverse] at h
  by_cases hd : (s.dropWhile Char.isWhitespace).reverse.dropWhile Char.isWhitespace = []
  · rw [hd] at h; cases h
  · rw [getLast?_dropWhile hd, List.getLast?_reverse] at h
    exact head?_dropWhile h

theorem pyStrip_getLast? {s : PyStr} {c : Char}
    (h : (pyStrip s).getLast? = some c) : c.isWhitespace = false := by
  unfold pyStrip at h
  rw [List.getLast?_reverse] at h
  exact head?_dropWhile h

theorem pyStrip_eq_self {s : PyStr}
    (h1 : ∀ c, s.head? = some c → c.isWhitespace = false)
    (h2 : ∀ c, s.getLast? = some c → c.isWhitespace = false) : pyStrip s = s := by
  unfold pyStrip
  rw [dropWhile_eq_self_of_head? h1]
  rw [dropWhile_eq_self_of_head? (by intro c hc; rw [List.head?_reverse] at hc; exact h2 c hc)]
  exact List.reverse_reverse s

theorem pyStrip_idem (s : PyStr) : pyStrip (pyStrip s) = pyStrip s :=
  pyStrip_eq_self (fun _ h => pyStrip_head? h) (fun _ h => pyStrip_getLast? h)

theorem pyStrip_cons_ws {c : Char} {s : PyStr} (h : c.isWhitespace = true) :
    pyStrip (c :: s) = pyStrip s := by
  unfold pyStrip
  rw [List.dropWhile_cons_of_pos h]

theorem stripped_append_sep {a b : PyStr} (ha : pyStrip a = a) (hb : pyStrip b = b)
    (hbne : b ≠ []) : pyStrip (a ++ [',', ' '] ++ b) = a ++ [',', ' '] ++ b := by
  apply pyStrip_eq_self
  · intro c hc
    cases a with
    | nil =>
      simp only [List.nil_append, List.cons_append, List.head?_cons,
        Option.some.injEq] at hc
      subst hc; decide
    | cons x t =>
      simp only [List.cons_append, List.head?_cons, Option.some.injEq] at hc
      subst hc
      exact pyStrip_head? (by rw [ha]; rfl)
  · intro c hc
    rw [List.append_assoc, List.getLast?_append] at hc
    rw [List.getLast?_append] at hc
    cases hbl : b.getLast? with
    | none => exact absurd (List.getLast?_eq_none_iff.1 hbl) hbne
    | some d =>
      rw [hbl] at hc
      simp only [Option.or_some, Option.some.injEq] at hc
      subst hc
      exact pyStrip_getLast? (by rw [hb]; exact hbl)

theorem splitColon1_no_colon {s k v : PyStr} (h : splitColon1 s = some (k, v)) :
    ':' ∉ k := by
  induction s generalizing k v with
  | nil => cases h
  | cons c rest ih =>
    simp only [splitColon1] at h
    by_cases hc : c = ':'
    · rw [if_pos hc] at h
      simp only [Option.some.injEq, Prod.mk.injEq] at h
      rw [← h.1]
      simp
    · rw [if_neg hc] at h
      cases hr : splitColon1 rest with
      | none => rw [hr] at h; cases h
      | some kv =>
        rw [hr] at h
        simp only [Option.some.injEq, Prod.mk.injEq] at h
        rcases h with ⟨h1, _⟩
        rw [← h1]
        intro hmem
        rcases List.mem_cons.1 hmem with h | h
        · exact hc h.symm
        · have := ih (k := kv.1) (v := kv.2) (by rw [hr])
          exact this h

theorem splitColon1_colon_mem {s k v : PyStr} (h : splitColon1 s = some (k, v)) :
    ':' ∈ s := by
  induction s generalizing k v with
  | nil => cases h
  | cons c rest ih =>
    simp only [splitColon1] at h
    by_cases hc : c = ':'
    · rw [hc]; exact List.mem_cons_self _ _
    · rw [if_neg hc] at h
      cases hr : splitColon1 rest with
      | none => rw [hr] at h; cases h
      | some kv =>
        exact List.mem_cons_of_mem _ (ih (k := kv.1) (v := kv.2) hr)

theorem splitColon1_append {k r : PyStr} (h : ':' ∉ k) :
    splitColon1 (k ++ ':' :: r) = some (k, r) := by
  induction k with
  | nil => simp [splitColon1]
  | cons c t ih =>
    have hc : c ≠ ':' := fun hcc => h (hcc ▸ List.mem_cons_self _ _)
    have ht : ':' ∉ t := fun htt => h (List.mem_cons_of_mem _ htt)
    simp only [List.cons_append]
    unfold splitColon1
    rw [if_neg hc, ih ht]

theorem pyStrip_ne_nil_of_splitColon1 {s k v : PyStr}
    (h : splitColon1 s = some (k, v)) : pyStrip s ≠ [] := by
  intro hs
  have := mem_pyStrip_of_not_ws (splitColon1_colon_mem h) (by decide)
  rw [hs] at this
  cases this

theorem splitCS_ne_nil (l : PyStr) : splitCommaSpace l ≠ [] := by
  induction l with
  | nil => simp [splitCommaSpace]
  | cons c rest ih =>
    cases rest with
    | nil => simp [splitCommaSpace]
    | cons c2 r2 =>
      unfold splitCommaSpace
      by_cases hsep : c = ',' ∧ c2 = ' '
      · simp [hsep]
      · rw [if_neg hsep]
        cases hr : splitCommaSpace (c2 :: r2) with
        | nil => exact absurd hr ih
        | cons h t => simp

theorem splitCS_sep_cons (b : PyStr) :
    splitCommaSpace (',' :: ' ' :: b) = [] :: splitCommaSpace b := by
  simp [splitCommaSpace]

theorem splitCS_append : ∀ (a b : PyStr),
    splitCommaSpace (a ++ [',', ' '] ++ b) = splitCommaSpace a ++ splitCommaSpace b
  | [], b => by
    simpa using splitCS_sep_cons b
  | [c], b => by
    show splitCommaSpace (c :: ',' :: ' ' :: b) = splitCommaSpace [c] ++ splitCommaSpace b
    by_cases h : c = ',' ∧ (',' : Char) = ' '
    · exact absurd h.2 (by decide)
    · conv_lhs => rw [splitCommaSpace]
      rw [if_neg h, splitCS_sep_cons b]
      rfl
  | c1 :: c2 :: rest, b => by
    show splitCommaSpace (c1 :: c2 :: (rest ++ [',', ' '] ++ b)) =
      splitCommaSpace (c1 :: c2 :: rest) ++ splitCommaSpace b
    have hmain : splitCommaSpace (c2 :: (rest ++ [',', ' '] ++ b)) =
        splitCommaSpace (c2 :: rest) ++ splitCommaSpace b := by
      have := splitCS_append (c2 :: rest) b
      simpa using this
    by_cases h : c1 = ',' ∧ c2 = ' '
    · conv_lhs => rw [splitCommaSpace]
      conv_rhs => rw [splitCommaSpace]
      rw [if_pos h, if_pos h, splitCS_append rest b]
      rfl
    · conv_lhs => rw [splitCommaSpace]
      conv_rhs => rw [splitCommaSpace]
      rw [if_neg h, if_neg h, hmain]
      cases hr : splitCommaSpace (c2 :: rest) with
      | nil => exact absurd hr (splitCS_ne_nil _)
      | cons h2 t2 => simp

end StringLemmas

section DictLemmas

theorem getKey_eq_none_iff {d : List (PyStr × PyStr)} {k : PyStr} :
    getKey d k = none ↔ k ∉ d.map Prod.fst := by
  induction d with
  | nil => simp [getKey]
  | cons kv rest ih =>
    rcases kv with ⟨k', v'⟩
    by_cases hk : k' = k
    · subst hk
      simp [getKey]
    · simp only [getKey, if_neg hk, List.map_cons, List.mem_cons, ih]
      constructor
      · intro h hcon
        rcases hcon with h1 | h1
        · exact hk h1.symm
        · exact h h1
      · intro h h1
        exact h (Or.inr h1)

theorem getKey_setKey_self (d : List (PyStr × PyStr)) (k v : PyStr) :
    getKey (setKey d k v) k = some v := by
  induction d with
  | nil => simp [setKey, getKey]
  | cons kv rest ih =>
    rcases kv with ⟨k', v'⟩
    by_cases hk : k' = k
    · simp [setKey, getKey, hk]
    · simp [setKey, getKey, hk, ih]

theorem getKey_setKey_ne {d : List (PyStr × PyStr)} {k k' : PyStr} (v : PyStr)
    (h : k' ≠ k) : getKey (setKey d k v) k' = getKey d k' := by
  have hne : ¬(k = k') := fun hh => h hh.symm
  induction d with
  | nil => simp [setKey, getKey, hne]
  | cons kv rest ih =>
    rcases kv with ⟨k1, v1⟩
    by_cases hk : k1 = k
    · subst hk
      simp [setKey, getKey, hne]
    · by_cases hk' : k1 = k'
      · simp [setKey, getKey, hk, hk', h]
      · simp [setKey, getKey, hk, hk', ih]

theorem setKey_of_getKey_none {d : List (PyStr × PyStr)} {k : PyStr} (v : PyStr)
    (h : getKey d k = none) : setKey d k v = d ++ [(k, v)] := by
  induction d with
  | nil => simp [setKey]
  | cons kv rest ih =>
    rcases kv with ⟨k', v'⟩
    simp only [getKey] at h
    by_cases hk : k' = k
    · rw [if_pos hk] at h; cases h
    · rw [if_neg hk] at h
      simp [setKey, hk, ih h]

theorem setKey_map_fst_of_mem {d : List (PyStr × PyStr)} {k : PyStr} (v : PyStr)
    (h : k ∈ d.map Prod.fst) : (setKey d k v).map Prod.fst = d.map Prod.fst := by
  induction d with
  | nil => cases h
  | cons kv rest ih =>
    rcases kv with ⟨k', v'⟩
    by_cases hk : k' = k
    · subst hk
      simp [setKey]
    · simp only [List.map_cons, List.mem_cons] at h
      rcases h with h | h
      · exact absurd h.symm hk
      · simp [setKey, hk, ih h]

theorem mem_setKey {d : List (PyStr × PyStr)} {k v : PyStr} {kv : PyStr × PyStr}
    (h : kv ∈ setKey d k v) : kv ∈ d ∨ kv = (k, v) := by
  induction d with
  | nil =>
    simp only [setKey, List.mem_singleton] at h
    exact Or.inr h
  | cons kv' rest ih =>
    rcases kv' with ⟨k', v'⟩
    by_cases hk : k' = k
    · simp only [setKey, if_pos hk, List.mem_cons] at h
      rcases h with h | h
      · exact Or.inr h
      · exact Or.inl (List.mem_cons_of_mem _ h)
    · simp only [setKey, if_neg hk, List.mem_cons] at h
      rcases h with h | h
      · exact Or.inl (h ▸ List.mem_cons_self _ _)
      · rcases ih h with h1 | h1
        · exact Or.inl (List.mem_cons_of_mem _ h1)
        · exact Or.inr h1

theorem getKey_append_left {d d' : List (PyStr × PyStr)} {k w : PyStr}
    (h : getKey d k = some w) : getKey (d ++ d') k = some w := by
  induction d with
  | nil => cases h
  | cons kv rest ih =>
    rcases kv with ⟨k', v'⟩
    simp only [getKey] at h ⊢
    by_cases hk : k' = k
    · rwa [if_pos hk] at h ⊢
    · rw [if_neg hk] at h ⊢
      exact ih h

theorem getKey_append_right {d d' : List (PyStr × PyStr)} {k : PyStr}
    (h : getKey d k = none) : getKey (d ++ d') k = getKey d' k := by
  induction d with
  | nil => simp
  | cons kv rest ih =>
    rcases kv with ⟨k', v'⟩
    simp only [getKey] at h ⊢
    by_cases hk : k' = k
    · rw [if_pos hk] at h; cases h
    · rw [if_neg hk] at h ⊢
      exact ih h

theorem getKey_append_singleton_self (d : List (PyStr × PyStr)) {k : PyStr} (v : PyStr)
    (h : getKey d k = none) : getKey (d ++ [(k, v)]) k = some v := by
  rw [getKey_append_right h]
  simp [getKey]

end DictLemmas

section MergeLemmas

theorem parseItem_keyed {st : MergeState} {item k v : PyStr}
    (h : splitColon1 item = some (k, v)) :
    parseExistingItem st item = { st with dict := setKey st.dict (pyStrip k) (pyStrip v) } := by
  simp only [parseExistingItem, h]

theorem parseItem_free {st : MergeState} {item : PyStr} (h : splitColon1 item = none) :
    parseExistingItem st item = { st with remaining := st.remaining ++ [item] } := by
  simp only [parseExistingItem, h]

theorem processItem_keyed_suppressed {st : MergeState} {item k v vOld : PyStr}
    (h2 : splitColon1 item = some (k, v))
    (h3 : getKey st.dict (pyStrip k) = some vOld)
    (h4 : pyStrip v ∈ splitCommaSpace vOld) :
    processNewItem st item = st := by
  simp only [processNewItem, h2, h3, if_pos h4]
  split
  · rfl
  · rfl

theorem processItem_keyed_combine {st : MergeState} {item k v vOld : PyStr}
    (h2 : splitColon1 item = some (k, v))
    (h3 : getKey st.dict (pyStrip k) = some vOld)
    (h4 : pyStrip v ∉ splitCommaSpace vOld) :
    processNewItem st item =
      { st with dict := setKey st.dict (pyStrip k) (vOld ++ [',', ' '] ++ pyStrip v) } := by
  have h1 : ¬(pyStrip item = []) := pyStrip_ne_nil_of_splitColon1 h2
  simp only [processNewItem, h2, h3, if_neg h1, if_neg h4]

theorem processItem_keyed_insert {st : MergeState} {item k v : PyStr}
    (h2 : splitColon1 item = some (k, v))
    (h3 : getKey st.dict (pyStrip k) = none) :
    processNewItem st item = { st with dict := st.dict ++ [(pyStrip k, pyStrip v)] } := by
  have h1 : ¬(pyStrip item = []) := pyStrip_ne_nil_of_splitColon1 h2
  simp only [processNewItem, h2, h3, if_neg h1]

theorem processItem_blank {st : MergeState} {item : PyStr} (h : pyStrip item = []) :
    processNewItem st item = st := by
  simp only [processNewItem, if_pos h]

theorem processItem_free_mem {st : MergeState} {item : PyStr}
    (h2 : splitColon1 item = none) (h3 : item ∈ st.remaining) :
    processNewItem st item = st := by
  simp only [processNewItem, h2, if_pos h3]
  split
  · rfl
  · rfl

theorem processItem_free_new {st : MergeState} {item : PyStr}
    (h1 : ¬(pyStrip item = [])) (h2 : splitColon1 item = none)
    (h3 : item ∉ st.remaining) :
    processNewItem st item = { st with remaining := st.remaining ++ [item] } := by
  simp only [processNewItem, h2, if_neg h1, if_neg h3]

/-- Invariant on the merge state concerning keys: dictionary keys are
colon-free, strip-fixed and pairwise distinct; remaining items have no colon. -/
def KeyInv (st : MergeState) : Prop :=
  (∀ kv ∈ st.dict, ':' ∉ kv.1 ∧ pyStrip kv.1 = kv.1) ∧
  (st.dict.map Prod.fst).Nodup ∧
  (∀ r ∈ st.remaining, splitColon1 r = none)

/-- Invariant on the merge state concerning values: dictionary values are
strip-fixed. -/
def ValInv (st : MergeState) : Prop :=
  ∀ kv ∈ st.dict, pyStrip kv.2 = kv.2

/-- Condition on an incoming fragment under which merging is idempotent:
for keyed fragments, the trimmed value is nonempty and has no `", "`
separator inside it (so it splits to itself). -/
def okItemCheck (i : PyStr) : Bool :=
  match splitColon1 i with
  | some kv => (pyStrip kv.2 != []) && (splitCommaSpace (pyStrip kv.2) == [pyStrip kv.2])
  | none => true

abbrev OKItem (i : PyStr) : Prop := okItemCheck i = true

theorem okItem_elim {i k v : PyStr} (h : OKItem i) (hsp : splitColon1 i = some (k, v)) :
    pyStrip v ≠ [] ∧ splitCommaSpace (pyStrip v) = [pyStrip v] := by
  unfold OKItem okItemCheck at h
  rw [hsp] at h
  simp only [Bool.and_eq_true, bne_iff_ne, ne_eq, beq_iff_eq] at h
  exact h

theorem nodup_concat_of {l : List PyStr} {a : PyStr} (h : l.Nodup) (ha : a ∉ l) :
    (l ++ [a]).Nodup := by
  simp [List.nodup_append, h, ha]

theorem keyInv_parseItem {st : MergeState} (i : PyStr) (h : KeyInv st) :
    KeyInv (parseExistingItem st i) := by
  rcases h with ⟨hkeys, hnodup, hrem⟩
  cases hi : splitColon1 i with
  | none =>
    rw [parseItem_free hi]
    refine ⟨hkeys, hnodup, ?_⟩
    intro r hr
    rcases List.mem_append.1 hr with hr | hr
    · exact hrem r hr
    · rw [List.mem_singleton.1 hr]; exact hi
  | some kv =>
    rcases kv with ⟨k, v⟩
    rw [parseItem_keyed hi]
    refine ⟨?_, ?_, hrem⟩
    · intro kv hkv
      rcases mem_setKey hkv with h1 | h1
      · exact hkeys kv h1
      · subst h1
        refine ⟨?_, pyStrip_idem k⟩
        intro hc
        exact splitColon1_no_colon hi (mem_of_mem_pyStrip hc)
    · by_cases hmem : pyStrip k ∈ st.dict.map Prod.fst
      · rw [setKey_map_fst_of_mem _ hmem]; exact hnodup
      · rw [setKey_of_getKey_none _ (getKey_eq_none_iff.2 hmem)]
        rw [List.map_append]
        exact nodup_concat_of hnodup hmem

theorem valInv_parseItem {st : MergeState} (i : PyStr) (h : ValInv st) :
    ValInv (parseExistingItem st i) := by
  cases hi : splitColon1 i with
  | none =>
    rw [parseItem_free hi]
    exact h
  | some kv =>
    rcases kv with ⟨k, v⟩
    rw [parseItem_keyed hi]
    intro kv hkv
    rcases mem_setKey hkv with h1 | h1
    · exact h kv h1
    · subst h1
      exact pyStrip_idem v

theorem mem_of_getKey {d : List (PyStr × PyStr)} {k w : PyStr}
    (h : getKey d k = some w) : ∃ kv ∈ d, kv.2 = w := by
  induction d with
  | nil => cases h
  | cons kv rest ih =>
    rcases kv with ⟨k', v'⟩
    simp only [getKey] at h
    by_cases hk : k' = k
    · rw [if_pos hk] at h
      exact ⟨(k', v'), List.mem_cons_self _ _, by simpa using h⟩
    · rw [if_neg hk] at h
      rcases ih h with ⟨kv, hmem, hval⟩
      exact ⟨kv, List.mem_cons_of_mem _ hmem, hval⟩

theorem keyInv_processItem {st : MergeState} (i : PyStr) (h : KeyInv st) :
    KeyInv (processNewItem st i) := by
  rcases h with ⟨hkeys, hnodup, hrem⟩
  by_cases hblank : pyStrip i = []
  · rw [processItem_blank hblank]; exact ⟨hkeys, hnodup, hrem⟩
  cases hi : splitColon1 i with
  | none =>
    by_cases hmem : i ∈ st.remaining
    · rw [processItem_free_mem hi hmem]; exact ⟨hkeys, hnodup, hrem⟩
    · rw [processItem_free_new hblank hi hmem]
      refine ⟨hkeys, hnodup, ?_⟩
      intro r hr
      rcases List.mem_append.1 hr with hr | hr
      · exact hrem r hr
      · rw [List.mem_singleton.1 hr]; exact hi
  | some kv =>
    rcases kv with ⟨k, v⟩
    have hkfree : ':' ∉ pyStrip k := by
      intro hc
      exact splitColon1_no_colon hi (mem_of_mem_pyStrip hc)
    cases hg : getKey st.dict (pyStrip k) with
    | some vOld =>
      by_cases hmem : pyStrip v ∈ splitCommaSpace vOld
      · rw [processItem_keyed_suppressed hi hg hmem]; exact ⟨hkeys, hnodup, hrem⟩
      · rw [processItem_keyed_combine hi hg hmem]
        refine ⟨?_, ?_, hrem⟩
        · intro kv hkv
          rcases mem_setKey hkv with h1 | h1
          · exact hkeys kv h1
          · subst h1
            exact ⟨hkfree, pyStrip_idem k⟩
        · have : pyStrip k ∈ st.dict.map Prod.fst := by
            by_contra hno
            rw [getKey_eq_none_iff.2 hno] at hg
            cases hg
          rw [setKey_map_fst_of_mem _ this]
          exact hnodup
    | none =>
      rw [processItem_keyed_insert hi hg]
      refine ⟨?_, ?_, hrem⟩
      · intro kv hkv
        rcases List.mem_append.1 hkv with h1 | h1
        · exact hkeys kv h1
        · rw [List.mem_singleton.1 h1]
          exact ⟨hkfree, pyStrip_idem k⟩
      · rw [List.map_append]
        exact nodup_concat_of hnodup (getKey_eq_none_iff.1 hg)

theorem valInv_processItem {st : MergeState} {i : PyStr} (hOK : OKItem i)
    (h : ValInv st) : ValInv (processNewItem st i) := by
  by_cases hblank : pyStrip i = []
  · rw [processItem_blank hblank]; exact h
  cases hi : splitColon1 i with
  | none =>
    by_cases hmem : i ∈ st.remaining
    · rw [processItem_free_mem hi hmem]; exact h
    · rw [processItem_free_new hblank hi hmem]; exact h
  | some kv =>
    rcases kv with ⟨k, v⟩
    rcases okItem_elim hOK hi with ⟨hvne, _⟩
    cases hg : getKey st.dict (pyStrip k) with
    | some vOld =>
      by_cases hmem : pyStrip v ∈ splitCommaSpace vOld
      · rw [processItem_keyed_suppressed hi hg hmem]; exact h
      · rw [processItem_keyed_combine hi hg hmem]
        intro kv hkv
        rcases mem_setKey hkv with h1 | h1
        · exact h kv h1
        · subst h1
          have hvOld : pyStrip vOld = vOld := by
            rcases mem_of_getKey hg with ⟨kv', hmem', hval⟩
            rw [← hval]
            exact h kv' hmem'
          exact stripped_append_sep hvOld (pyStrip_idem v) hvne
    | none =>
      rw [processItem_keyed_insert hi hg]
      intro kv hkv
      rcases List.mem_append.1 hkv with h1 | h1
      · exact h kv h1
      · rw [List.mem_singleton.1 h1]
        exact pyStrip_idem v

end MergeLemmas

section MergeMainLemmas

theorem keyInv_foldl_parse : ∀ (l : List PyStr) (st : MergeState),
    KeyInv st → KeyInv (l.foldl parseExistingItem st)
  | [], _, h => h
  | x :: rest, st, h => keyInv_foldl_parse rest _ (keyInv_parseItem x h)

theorem valInv_foldl_parse : ∀ (l : List PyStr) (st : MergeState),
    ValInv st → ValInv (l.foldl parseExistingItem st)
  | [], _, h => h
  | x :: rest, st, h => valInv_foldl_parse rest _ (valInv_parseItem x h)

theorem keyInv_foldl_process : ∀ (l : List PyStr) (st : MergeState),
    KeyInv st → KeyInv (l.foldl processNewItem st)
  | [], _, h => h
  | x :: rest, st, h => keyInv_foldl_process rest _ (keyInv_processItem x h)

theorem valInv_foldl_process : ∀ (l : List PyStr) (st : MergeState),
    (∀ i ∈ l, OKItem i) → ValInv st → ValInv (l.foldl processNewItem st)
  | [], _, _, h => h
  | x :: rest, st, hOK, h =>
    valInv_foldl_process rest _ (fun i hi => hOK i (List.mem_cons_of_mem _ hi))
      (valInv_processItem (hOK x (List.mem_cons_self _ _)) h)

theorem keyInv_parseState (e : List PyStr) : KeyInv (parseState e) :=
  keyInv_foldl_parse e ⟨[], []⟩ ⟨by simp, by simp, by simp⟩

theorem valInv_parseState (e : List PyStr) : ValInv (parseState e) :=
  valInv_foldl_parse e ⟨[], []⟩ (by simp [ValInv])

theorem keyInv_mergeState (e F : List PyStr) : KeyInv (mergeState e F) :=
  keyInv_foldl_process F _ (keyInv_parseState e)

theorem valInv_mergeState (e F : List PyStr) (hOK : ∀ i ∈ F, OKItem i) :
    ValInv (mergeState e F) :=
  valInv_foldl_process F _ hOK (valInv_parseState e)

theorem parse_rendered_dict :
    ∀ (pairs d : List (PyStr × PyStr)) (r : List PyStr),
    (∀ kv ∈ pairs, ':' ∉ kv.1 ∧ pyStrip kv.1 = kv.1 ∧ pyStrip kv.2 = kv.2) →
    (∀ kv ∈ pairs, getKey d kv.1 = none) →
    (pairs.map Prod.fst).Nodup →
    (pairs.map renderKV).foldl parseExistingItem ⟨d, r⟩ = ⟨d ++ pairs, r⟩
  | [], d, r, _, _, _ => by simp
  | (k, v) :: rest, d, r, hinv, habs, hnodup => by
    have hk := hinv (k, v) (List.mem_cons_self _ _)
    have hsplit : splitColon1 (renderKV (k, v)) = some (k, ' ' :: v) := by
      have : renderKV (k, v) = k ++ ':' :: (' ' :: v) := by simp [renderKV]
      rw [this]
      exact splitColon1_append hk.1
    have hstep : parseExistingItem ⟨d, r⟩ (renderKV (k, v)) =
        ⟨d ++ [(k, v)], r⟩ := by
      rw [parseItem_keyed hsplit]
      have hv : pyStrip (' ' :: v) = v := by
        rw [pyStrip_cons_ws (by decide)]
        exact hk.2.2
      have hkk : pyStrip k = k := hk.2.1
      simp only [hv, hkk]
      rw [setKey_of_getKey_none _ (habs (k, v) (List.mem_cons_self _ _))]
    simp only [List.map_cons, List.foldl_cons, hstep]
    have hrest := parse_rendered_dict rest (d ++ [(k, v)]) r
      (fun kv hkv => hinv kv (List.mem_cons_of_mem _ hkv))
      (fun kv hkv => by
        have hne : kv.1 ≠ k := by
          intro hkv1
          simp only [List.map_cons] at hnodup
          have := (List.nodup_cons.1 hnodup).1
          exact this (hkv1 ▸ List.mem_map_of_mem Prod.fst hkv)
        rw [getKey_append_right (habs kv (List.mem_cons_of_mem _ hkv))]
        simp only [getKey]
        rw [if_neg (fun hh => hne hh.symm)])
      (by simp only [List.map_cons] at hnodup; exact (List.nodup_cons.1 hnodup).2)
    rw [hrest]
    simp

theorem parse_rendered_remaining :
    ∀ (rem : List PyStr) (d : List (PyStr × PyStr)) (r : List PyStr),
    (∀ i ∈ rem, splitColon1 i = none) →
    rem.foldl parseExistingItem ⟨d, r⟩ = ⟨d, r ++ rem⟩
  | [], d, r, _ => by simp
  | x :: rest, d, r, h => by
    simp only [List.foldl_cons, parseItem_free (h x (List.mem_cons_self _ _))]
    rw [parse_rendered_remaining rest d (r ++ [x])
      (fun i hi => h i (List.mem_cons_of_mem _ hi))]
    simp

theorem parseState_renderState {st : MergeState} (hk : KeyInv st) (hv : ValInv st) :
    parseState (renderState st) = st := by
  rcases hk with ⟨hkeys, hnodup, hrem⟩
  unfold parseState renderState
  rw [List.foldl_append]
  rw [parse_rendered_dict st.dict [] []
    (fun kv hkv => ⟨(hkeys kv hkv).1, (hkeys kv hkv).2, hv kv hkv⟩)
    (fun kv _ => rfl) hnodup]
  simp only [List.nil_append]
  rw [parse_rendered_remaining st.remaining st.dict [] hrem]
  simp

/-- A fragment is absorbed by a state when processing it leaves the state
unchanged. -/
def Absorbed (st : MergeState) (i : PyStr) : Prop :=
  match splitColon1 i with
  | some (k, v) =>
    pyStrip i = [] ∨
      ∃ w, getKey st.dict (pyStrip k) = some w ∧ pyStrip v ∈ splitCommaSpace w
  | none => pyStrip i = [] ∨ i ∈ st.remaining

theorem processItem_of_absorbed {st : MergeState} {i : PyStr} (h : Absorbed st i) :
    processNewItem st i = st := by
  unfold Absorbed at h
  cases hi : splitColon1 i with
  | some kv =>
    rcases kv with ⟨k, v⟩
    rw [hi] at h
    rcases h with h | ⟨w, hg, hm⟩
    · exact processItem_blank h
    · exact processItem_keyed_suppressed hi hg hm
  | none =>
    rw [hi] at h
    rcases h with h | h
    · exact processItem_blank h
    · exact processItem_free_mem hi h

theorem absorbed_after {st : MergeState} {i : PyStr} (hOK : OKItem i) :
    Absorbed (processNewItem st i) i := by
  by_cases hblank : pyStrip i = []
  · unfold Absorbed
    cases splitColon1 i with
    | some kv => exact Or.inl hblank
    | none => exact Or.inl hblank
  cases hi : splitColon1 i with
  | some kv =>
    rcases kv with ⟨k, v⟩
    rcases okItem_elim hOK hi with ⟨_, hsplit⟩
    unfold Absorbed
    rw [hi]
    refine Or.inr ?_
    cases hg : getKey st.dict (pyStrip k) with
    | some vOld =>
      by_cases hmem : pyStrip v ∈ splitCommaSpace vOld
      · rw [processItem_keyed_suppressed hi hg hmem]
        exact ⟨vOld, hg, hmem⟩
      · rw [processItem_keyed_combine hi hg hmem]
        refine ⟨vOld ++ [',', ' '] ++ pyStrip v, ?_, ?_⟩
        · exact getKey_setKey_self st.dict (pyStrip k) _
        · rw [splitCS_append, hsplit]
          simp
    | none =>
      rw [processItem_keyed_insert hi hg]
      refine ⟨pyStrip v, ?_, ?_⟩
      · exact getKey_append_singleton_self st.dict (pyStrip v) hg
      · rw [hsplit]; simp
  | none =>
    unfold Absorbed
    rw [hi]
    refine Or.inr ?_
    by_cases hmem : i ∈ st.remaining
    · rw [processItem_free_mem hi hmem]; exact hmem
    · rw [processItem_free_new hblank hi hmem]; simp

theorem remaining_grows (st : MergeState) (j : PyStr) :
    ∃ t, (processNewItem st j).remaining = st.remaining ++ t := by
  by_cases hblank : pyStrip j = []
  · rw [processItem_blank hblank]; exact ⟨[], by simp⟩
  cases hj : splitColon1 j with
  | some kv =>
    rcases kv with ⟨k, v⟩
    cases hg : getKey st.dict (pyStrip k) with
    | some vOld =>
      by_cases hmem : pyStrip v ∈ splitCommaSpace vOld
      · rw [processItem_keyed_suppressed hj hg hmem]; exact ⟨[], by simp⟩
      · rw [processItem_keyed_combine hj hg hmem]; exact ⟨[], by simp⟩
    | none =>
      rw [processItem_keyed_insert hj hg]; exact ⟨[], by simp⟩
  | none =>
    by_cases hmem : j ∈ st.remaining
    · rw [processItem_free_mem hj hmem]; exact ⟨[], by simp⟩
    · rw [processItem_free_new hblank hj hmem]; exact ⟨[j], rfl⟩

theorem absorbed_mono {st : MergeState} {i : PyStr} (j : PyStr) (hOKj : OKItem j)
    (h : Absorbed st i) : Absorbed (processNewItem st j) i := by
  unfold Absorbed at h ⊢
  cases hi : splitColon1 i with
  | none =>
    rw [hi] at h
    rcases h with h | h
    · exact Or.inl h
    · rcases remaining_grows st j with ⟨t, ht⟩
      rw [ht]
      exact Or.inr (List.mem_append_left t h)
  | some kv =>
    rcases kv with ⟨ki, vi⟩
    rw [hi] at h
    rcases h with h | ⟨w, hg, hm⟩
    · exact Or.inl h
    refine Or.inr ?_
    by_cases hblank : pyStrip j = []
    · rw [processItem_blank hblank]; exact ⟨w, hg, hm⟩
    cases hj : splitColon1 j with
    | none =>
      by_cases hmem : j ∈ st.remaining
      · rw [processItem_free_mem hj hmem]; exact ⟨w, hg, hm⟩
      · rw [processItem_free_new hblank hj hmem]; exact ⟨w, hg, hm⟩
    | some kvj =>
      rcases kvj with ⟨kj, vj⟩
      cases hgj : getKey st.dict (pyStrip kj) with
      | some vOldj =>
        by_cases hmemj : pyStrip vj ∈ splitCommaSpace vOldj
        · rw [processItem_keyed_suppressed hj hgj hmemj]; exact ⟨w, hg, hm⟩
        · rw [processItem_keyed_combine hj hgj hmemj]
          by_cases hkk : pyStrip ki = pyStrip kj
          · have hww : vOldj = w := by
              rw [hkk] at hg
              rw [hg] at hgj
              exact (Option.some.injEq _ _ ▸ hgj).symm ▸ rfl
            subst hww
            refine ⟨vOldj ++ [',', ' '] ++ pyStrip vj, ?_, ?_⟩
            · rw [hkk]
              exact getKey_setKey_self st.dict (pyStrip kj) _
            · rw [splitCS_append]
              exact List.mem_append_left _ hm
          · rw [getKey_setKey_ne _ hkk]
            exact ⟨w, hg, hm⟩
      | none =>
        rw [processItem_keyed_insert hj hgj]
        refine ⟨w, ?_, hm⟩
        exact getKey_append_left hg

theorem absorbed_foldl_mono : ∀ (l : List PyStr) (st : MergeState) (i : PyStr),
    (∀ j ∈ l, OKItem j) → Absorbed st i → Absorbed (l.foldl processNewItem st) i
  | [], _, _, _, h => h
  | x :: rest, st, i, hOK, h =>
    absorbed_foldl_mono rest _ i (fun j hj => hOK j (List.mem_cons_of_mem _ hj))
      (absorbed_mono x (hOK x (List.mem_cons_self _ _)) h)

theorem all_absorbed_after_foldl : ∀ (F : List PyStr) (st : MergeState),
    (∀ i ∈ F, OKItem i) → ∀ i ∈ F, Absorbed (F.foldl processNewItem st) i
  | [], _, _, i, hi => absurd hi (List.not_mem_nil i)
  | x :: rest, st, hOK, i, hi => by
    rcases List.mem_cons.1 hi with rfl | hi
    · exact absorbed_foldl_mono rest _ i
        (fun j hj => hOK j (List.mem_cons_of_mem _ hj))
        (absorbed_after (hOK i (List.mem_cons_self _ _)))
    · exact all_absorbed_after_foldl rest (processNewItem st x)
        (fun j hj => hOK j (List.mem_cons_of_mem _ hj)) i hi

theorem foldl_of_all_absorbed : ∀ (F : List PyStr) (st : MergeState),
    (∀ i ∈ F, Absorbed st i) → F.foldl processNewItem st = st
  | [], _, _ => rfl
  | x :: rest, st, h => by
    simp only [List.foldl_cons, processItem_of_absorbed (h x (List.mem_cons_self _ _))]
    exact foldl_of_all_absorbed rest st (fun i hi => h i (List.mem_cons_of_mem _ hi))

end MergeMainLemmas

section MergeSize

def stateSize (st : MergeState) : Nat := st.dict.length + st.remaining.length

theorem setKey_length_ge (d : List (PyStr × PyStr)) (k v : PyStr) :
    d.length ≤ (setKey d k v).length := by
  induction d with
  | nil => simp [setKey]
  | cons kv rest ih =>
    rcases kv with ⟨k', v'⟩
    by_cases hk : k' = k
    · simp [setKey, hk]
    · simpa [setKey, hk] using ih

theorem stateSize_parseItem (st : MergeState) (i : PyStr) :
    stateSize st ≤ stateSize (parseExistingItem st i) := by
  cases hi : splitColon1 i with
  | some kv =>
    rcases kv with ⟨k, v⟩
    rw [parseItem_keyed hi]
    simp only [stateSize]
    exact Nat.add_le_add_right (setKey_length_ge _ _ _) _
  | none =>
    rw [parseItem_free hi]
    simp [stateSize]

theorem stateSize_processItem (st : MergeState) (i : PyStr) :
    stateSize st ≤ stateSize (processNewItem st i) := by
  by_cases hblank : pyStrip i = []
  · rw [processItem_blank hblank]
  cases hi : splitColon1 i with
  | some kv =>
    rcases kv with ⟨k, v⟩
    cases hg : getKey st.dict (pyStrip k) with
    | some vOld =>
      by_cases hmem : pyStrip v ∈ splitCommaSpace vOld
      · rw [processItem_keyed_suppressed hi hg hmem]
      · rw [processItem_keyed_combine hi hg hmem]
        simp only [stateSize]
        exact Nat.add_le_add_right (setKey_length_ge _ _ _) _
    | none =>
      rw [processItem_keyed_insert hi hg]
      simp [stateSize]
  | none =>
    by_cases hmem : i ∈ st.remaining
    · rw [processItem_free_mem hi hmem]
    · rw [processItem_free_new hblank hi hmem]
      simp [stateSize]

theorem stateSize_foldl_parse : ∀ (l : List PyStr) (st : MergeState),
    stateSize st ≤ stateSize (l.foldl parseExistingItem st)
  | [], _ => le_refl _
  | x :: rest, st =>
    le_trans (stateSize_parseItem st x) (stateSize_foldl_parse rest _)

theorem stateSize_foldl_process : ∀ (l : List PyStr) (st : MergeState),
    stateSize st ≤ stateSize (l.foldl processNewItem st)
  | [], _ => le_refl _
  | x :: rest, st =>
    le_trans (stateSize_processItem st x) (stateSize_foldl_process rest _)

theorem one_le_stateSize_parseItem_empty (i : PyStr) :
    1 ≤ stateSize (parseExistingItem ⟨[], []⟩ i) := by
  cases hi : splitColon1 i with
  | some kv =>
    rcases kv with ⟨k, v⟩
    rw [parseItem_keyed hi]
    simp [stateSize, setKey]
  | none =>
    rw [parseItem_free hi]
    simp [stateSize]

theorem renderState_length (st : MergeState) :
    (renderState st).length = stateSize st := by
  simp [renderState, stateSize]

theorem renderState_mergeState_ne_nil {e : List PyStr} (F : List PyStr)
    (he : e ≠ []) : renderState (mergeState e F) ≠ [] := by
  have hpos : 1 ≤ stateSize (mergeState e F) := by
    cases e with
    | nil => exact absurd rfl he
    | cons x rest =>
      have h1 : 1 ≤ stateSize (parseState (x :: rest)) := by
        unfold parseState
        simp only [List.foldl_cons]
        exact le_trans (one_le_stateSize_parseItem_empty x) (stateSize_foldl_parse rest _)
      exact le_trans h1 (stateSize_foldl_process F _)
  intro hnil
  have := renderState_length (mergeState e F)
  rw [hnil] at this
  simp at this
  omega

end MergeSize

section ScopeKeys

/-- The trimmed key of a keyed fragment: the text before the first colon,
with surrounding whitespace stripped; `none` for free-text fragments. -/
def fragKey (s : PyStr) : Option PyStr := (splitColon1 s).map (fun p => pyStrip p.1)

/-- The (case-sensitively) normalized keys of the keyed fragments of a scope. -/
def scopeKeys (scope : List PyStr) : List PyStr := scope.filterMap fragKey

/-- The case-insensitively normalized keys (trim, then lowercase) of the keyed
fragments of a scope — the normalization named by the specification. -/
def scopeKeysCI (scope : List PyStr) : List PyStr := (scopeKeys scope).map pyLower

theorem fragKey_renderKV {k v : PyStr} (hfree : ':' ∉ k) (hstrip : pyStrip k = k) :
    fragKey (renderKV (k, v)) = some k := by
  have : renderKV (k, v) = k ++ ':' :: (' ' :: v) := by simp [renderKV]
  unfold fragKey
  rw [this, splitColon1_append hfree]
  simp [hstrip]

theorem scopeKeys_map_renderKV :
    ∀ (A : List (PyStr × PyStr)),
    (∀ kv ∈ A, ':' ∉ kv.1 ∧ pyStrip kv.1 = kv.1) →
    List.filterMap fragKey (A.map renderKV) = A.map Prod.fst
  | [], _ => rfl
  | (k, v) :: rest, h => by
    have hk := h (k, v) (List.mem_cons_self _ _)
    simp only [List.map_cons, List.filterMap_cons, fragKey_renderKV hk.1 hk.2]
    rw [scopeKeys_map_renderKV rest (fun kv hkv => h kv (List.mem_cons_of_mem _ hkv))]

theorem scopeKeys_renderState {st : MergeState} (hk : KeyInv st) :
    scopeKeys (renderState st) = st.dict.map Prod.fst := by
  rcases hk with ⟨hkeys, _, hrem⟩
  unfold scopeKeys renderState
  rw [List.filterMap_append]
  rw [scopeKeys_map_renderKV st.dict hkeys]
  have : List.filterMap fragKey st.remaining = [] := by
    rw [List.filterMap_eq_nil_iff]
    intro r hr
    unfold fragKey
    rw [hrem r hr]
    rfl
  rw [this, List.append_nil]

theorem scopeKeys_merge_step (scope b : List PyStr)
    (hs : (scopeKeys scope).Nodup) (hb : (scopeKeys b).Nodup) :
    (scopeKeys (mergeContextArrays scope b)).Nodup := by
  unfold mergeContextArrays
  by_cases hbnil : b = []
  · rw [if_pos hbnil]; exact hs
  rw [if_neg hbnil]
  by_cases hsnil : scope = []
  · rw [if_pos hsnil]; exact hb
  rw [if_neg hsnil]
  rw [scopeKeys_renderState (keyInv_mergeState scope b)]
  exact (keyInv_mergeState scope b).2.1

end ScopeKeys

section MergeClaims

/-- C1 — For a keyed incoming fragment, the stored value for its trimmed key
after the merge: if the key was absent it is inserted with the trimmed value;
if present with value `v_old`, the value is unchanged exactly when the trimmed
incoming value is already one of the comma-space-separated parts of `v_old`
(`v in v_old.split(", ")`), and otherwise becomes `v_old + ", " + v`.
In particular, merging `["budget: $3000"]` into `["budget: $2000"]` yields
`["budget: $2000, $3000"]`, and merging `["budget: $2000"]` again changes
nothing.  (This corrects the claim's "unchanged exactly when v equals v_old":
the code tests membership in the split of the stored value, not equality.) -/
theorem merge_keyed_value_rule (e : List PyStr) (frag k v : PyStr)
    (hsplit : splitColon1 frag = some (k, v)) :
    getKey (mergeState e [frag]).dict (pyStrip k) =
      some (match getKey (parseState e).dict (pyStrip k) with
        | none => pyStrip v
        | some vOld =>
          if pyStrip v ∈ splitCommaSpace vOld then vOld
          else vOld ++ [',', ' '] ++ pyStrip v) ∧
    mergeContextArrays ["budget: $2000".toList] ["budget: $3000".toList] =
      ["budget: $2000, $3000".toList] ∧
    mergeContextArrays ["budget: $2000, $3000".toList] ["budget: $2000".toList] =
      ["budget: $2000, $3000".toList] := by
  refine ⟨?_, by decide, by decide⟩
  show getKey (processNewItem (parseState e) frag).dict (pyStrip k) = _
  cases hg : getKey (parseState e).dict (pyStrip k) with
  | none =>
    rw [processItem_keyed_insert hsplit hg]
    exact getKey_append_singleton_self _ _ hg
  | some vOld =>
    by_cases hmem : pyStrip v ∈ splitCommaSpace vOld
    · rw [processItem_keyed_suppressed hsplit hg hmem, hg]
      show some vOld = some (if pyStrip v ∈ splitCommaSpace vOld then vOld
        else vOld ++ [',', ' '] ++ pyStrip v)
      rw [if_pos hmem]
    · rw [processItem_keyed_combine hsplit hg hmem]
      show getKey (setKey (parseState e).dict (pyStrip k)
          (vOld ++ [',', ' '] ++ pyStrip v)) (pyStrip k) =
        some (if pyStrip v ∈ splitCommaSpace vOld then vOld
          else vOld ++ [',', ' '] ++ pyStrip v)
      rw [if_neg hmem, getKey_setKey_self]

/-- C1 counterexample — the claim's general rule says that since
`"$3000" ≠ "$2000, $3000"`, merging `["budget: $3000"]` into
`["budget: $2000, $3000"]` must store `"$2000, $3000, $3000"`; the code
instead leaves the scope unchanged, because `"$3000"` is a member of
`"$2000, $3000".split(", ")`. -/
theorem merge_keyed_exact_match_claim_false :
    mergeContextArrays ["budget: $2000, $3000".toList] ["budget: $3000".toList] =
      ["budget: $2000, $3000".toList] ∧
    mergeContextArrays ["budget: $2000, $3000".toList] ["budget: $3000".toList] ≠
      ["budget: $2000, $3000, $3000".toList] ∧
    "$3000".toList ≠ "$2000, $3000".toList := by
  refine ⟨by decide, by decide, by decide⟩

theorem merge_keyed_value_rule_witness :
    splitColon1 "k: b".toList = some ("k".toList, " b".toList) ∧
    (getKey (mergeState ["k: a".toList] ["k: b".toList]).dict
        (pyStrip "k".toList) =
      some (match getKey (parseState ["k: a".toList]).dict (pyStrip "k".toList) with
        | none => pyStrip " b".toList
        | some vOld =>
          if pyStrip " b".toList ∈ splitCommaSpace vOld then vOld
          else vOld ++ [',', ' '] ++ pyStrip " b".toList) ∧
      mergeContextArrays ["budget: $2000".toList] ["budget: $3000".toList] =
        ["budget: $2000, $3000".toList] ∧
      mergeContextArrays ["budget: $2000, $3000".toList] ["budget: $2000".toList] =
        ["budget: $2000, $3000".toList]) :=
  ⟨by decide, merge_keyed_value_rule ["k: a".toList] _ _ _ (by decide)⟩

/-- C2 counterexample — starting from the empty scope and merging
`["Budget: 1"]` then `["budget: 2"]` leaves two stored fragments whose
keys normalize identically under trim-and-lowercase, refuting the claimed
invariant: the code compares keys case-sensitively. -/
theorem merge_ci_invariant_claim_false :
    List.foldl mergeContextArrays []
        [["Budget: 1".toList], ["budget: 2".toList]] =
      ["Budget: 1".toList, "budget: 2".toList] ∧
    ¬ (scopeKeysCI (List.foldl mergeContextArrays []
        [["Budget: 1".toList], ["budget: 2".toList]])).Nodup := by
  refine ⟨by decide, by decide⟩

/-- C2 (amended) — after any sequence of merges starting from the empty scope
in which every incoming batch has pairwise-distinct trimmed keys among its
keyed fragments, no two stored fragments share the same trimmed key compared
**case-sensitively** (the comparison the code actually performs). -/
theorem merge_sequence_keys_nodup (batches : List (List PyStr))
    (hb : ∀ b ∈ batches, (scopeKeys b).Nodup) :
    (scopeKeys (batches.foldl mergeContextArrays [])).Nodup := by
  suffices h : ∀ (bs : List (List PyStr)) (scope : List PyStr),
      (scopeKeys scope).Nodup → (∀ b ∈ bs, (scopeKeys b).Nodup) →
      (scopeKeys (bs.foldl mergeContextArrays scope)).Nodup by
    exact h batches [] (by simp [scopeKeys]) hb
  intro bs
  induction bs with
  | nil => intro scope hs _; exact hs
  | cons b rest ih =>
    intro scope hs hbs
    simp only [List.foldl_cons]
    exact ih (mergeContextArrays scope b)
      (scopeKeys_merge_step scope b hs (hbs b (List.mem_cons_self _ _)))
      (fun b' hb' => hbs b' (List.mem_cons_of_mem _ hb'))

theorem merge_sequence_keys_nodup_witness :
    (∀ b ∈ [["budget: $2000".toList], ["budget: $3000".toList]],
      (scopeKeys b).Nodup) ∧
    (scopeKeys (List.foldl mergeContextArrays []
        [["budget: $2000".toList], ["budget: $3000".toList]])).Nodup :=
  ⟨by decide, merge_sequence_keys_nodup _ (by decide)⟩

/-- C3 counterexample — merging `["a:1"]` into the empty scope copies the
fragment verbatim, while merging it a second time re-renders it as `"a: 1"`:
the two scope contents differ, so merge is not idempotent in general. -/
theorem merge_idempotent_claim_false :
    mergeContextArrays (mergeContextArrays [] ["a:1".toList]) ["a:1".toList] ≠
      mergeContextArrays [] ["a:1".toList] ∧
    mergeContextArrays [] ["a:1".toList] = ["a:1".toList] ∧
    mergeContextArrays (mergeContextArrays [] ["a:1".toList]) ["a:1".toList] =
      ["a: 1".toList] := by
  refine ⟨by decide, by decide, by decide⟩

/-- C3 (amended) — merge is idempotent provided the starting scope is
nonempty (so the verbatim-copy path for an empty scope is not taken) and
every keyed incoming fragment has a nonempty trimmed value containing no
`", "` separator. -/
theorem merge_idempotent_amended (e F : List PyStr) (he : e ≠ [])
    (hOK : ∀ i ∈ F, OKItem i) :
    mergeContextArrays (mergeContextArrays e F) F = mergeContextArrays e F := by
  by_cases hF : F = []
  · subst hF
    unfold mergeContextArrays
    simp
  have h1 : mergeContextArrays e F = renderState (mergeState e F) := by
    unfold mergeContextArrays
    rw [if_neg hF, if_neg he]
  have hrne : renderState (mergeState e F) ≠ [] := renderState_mergeState_ne_nil F he
  rw [h1]
  unfold mergeContextArrays
  rw [if_neg hF, if_neg hrne]
  have h2 : parseState (renderState (mergeState e F)) = mergeState e F :=
    parseState_renderState (keyInv_mergeState e F) (valInv_mergeState e F hOK)
  show renderState (F.foldl processNewItem (parseState (renderState (mergeState e F)))) = _
  rw [h2]
  rw [foldl_of_all_absorbed F (mergeState e F)
    (all_absorbed_after_foldl F (parseState e) hOK)]

theorem merge_idempotent_amended_witness :
    (["k: a".toList] ≠ ([] : List PyStr)) ∧
    (∀ i ∈ ["k: b".toList], OKItem i) ∧
    mergeContextArrays (mergeContextArrays ["k: a".toList] ["k: b".toList])
        ["k: b".toList] =
      mergeContextArrays ["k: a".toList] ["k: b".toList] :=
  ⟨by decide, by decide, merge_idempotent_amended _ _ (by decide) (by decide)⟩

end MergeClaims

section Classifier

/-!
## Query classifier — `QueryClassifier` (src/core/query_classifier.py)

`classify_with_patterns` (lines 267–353) scores each query type by keyword
(weight 1) and phrase (weight 2) substring matches against the lowercased
query, normalized by the number of patterns; `combine_classifications`
(lines 355–449) reconciles the validated LLM verdict with the pattern
verdict using fixed weights 0.8 / 0.2 and a 0.3 agreement bonus.
-/

/-- Python's `needle in hay` substring test. -/
def pyContains : PyStr → PyStr → Bool
  | [], needle => needle.isEmpty
  | c :: rest, needle => needle.isPrefixOf (c :: rest) || pyContains rest needle

def destKeywords : List PyStr :=
  ["where to go", "destination", "recommend", "visit", "travel to",
   "best places", "suggestions", "trip ideas", "vacation spots",
   "cities", "countries", "places to visit", "travel recommendations"].map
    String.toList

def destPhrases : List PyStr :=
  ["where should i go", "recommend a destination", "best place to visit",
   "travel suggestions", "vacation ideas"].map String.toList

def packKeywords : List PyStr :=
  ["pack", "packing", "bring", "luggage", "suitcase", "clothes",
   "clothing", "what to wear", "items", "essentials", "bag"].map String.toList

def packPhrases : List PyStr :=
  ["what should i pack", "what to bring", "packing list",
   "what clothes", "what items"].map String.toList

def attrKeywords : List PyStr :=
  ["attractions", "activities", "things to do", "sightseeing",
   "museums", "restaurants", "landmarks", "tours", "experiences",
   "entertainment", "culture", "local", "places to see"].map String.toList

def attrPhrases : List PyStr :=
  ["things to do", "what to see", "attractions in", "activities in",
   "places to visit in"].map String.toList

def weatherNeededPatterns : List PyStr :=
  ["weather", "temperature", "rain", "snow", "climate", "season",
   "pack", "packing", "clothes", "clothing", "what to wear"].map String.toList

def locationSpecificPatterns : List PyStr :=
  ["current", "now", "today", "this week", "real-time", "latest",
   "activities", "attractions", "things to do", "restaurants"].map String.toList

/-- Normalized pattern score for one query type: keyword matches count 1,
phrase matches count 2, divided by the number of patterns defined for the
type (0 when no patterns are defined).  `ql` is the lowercased query. -/
def typeScore (ql : PyStr) (kws phs : List PyStr) : ℚ :=
  if kws.length + phs.length = 0 then 0
  else (((kws.filter fun kw => pyContains ql kw).length : ℚ) +
        2 * ((phs.filter fun ph => pyContains ql ph).length : ℚ)) /
       ((kws.length + phs.length : ℕ) : ℚ)

/-- Python `max(type_scores.keys(), key=score)`: iteration order is
destination, packing, attractions; a later candidate replaces the current
best only on a strictly greater score. -/
def argmaxStep (c : PyStr × ℚ) (t : PyStr) (s : ℚ) : PyStr × ℚ :=
  if s > c.2 then (t, s) else c

def bestCandidate (q : PyStr) : PyStr × ℚ :=
  argmaxStep
    (argmaxStep
      ("destination_recommendations".toList, typeScore (pyLower q) destKeywords destPhrases)
      "packing_suggestions".toList (typeScore (pyLower q) packKeywords packPhrases))
    "local_attractions".toList (typeScore (pyLower q) attrKeywords attrPhrases)

/-- `if best_score == 0: default to destination_recommendations with 0.1`. -/
def bestWithDefault (q : PyStr) : PyStr × ℚ :=
  if (bestCandidate q).2 = 0 then ("destination_recommendations".toList, 1/10)
  else bestCandidate q

def weatherMatchCount (q : PyStr) : Nat :=
  (weatherNeededPatterns.filter fun p => pyContains (pyLower q) p).length

def locationMatchCount (q : PyStr) : Nat :=
  (locationSpecificPatterns.filter fun p => pyContains (pyLower q) p).length

/-- The sequential external-data detection of `classify_with_patterns`. -/
def patternExternalKind (q : PyStr) : PyStr :=
  let t1 : PyStr :=
    if 0 < weatherMatchCount q then "weather".toList else "none".toList
  if 0 < locationMatchCount q then
    let t2 := if t1 = "none".toList then "attractions".toList else t1
    if t2 = "weather".toList then "both".toList else t2
  else t1

def patternExternalNeeded (q : PyStr) : Bool :=
  decide (0 < weatherMatchCount q) || decide (0 < locationMatchCount q)

/-- The pattern classifier's verdict (the fields of the returned dict that
later stages read).  `qtype` is the dict's `"type"`, `confidence` its
`"confidence"`, `needsExternal` its `"external_data_needed"`, `externalKind`
its `"external_data_type"`. -/
structure PatternResult where
  qtype : PyStr
  confidence : ℚ
  needsExternal : Bool
  externalKind : PyStr

/-- `QueryClassifier.classify_with_patterns`. -/
def classifyWithPatterns (q : PyStr) : PatternResult :=
  { qtype := (bestWithDefault q).1
    confidence := (bestWithDefault q).2
    needsExternal := patternExternalNeeded q
    externalKind := patternExternalKind q }

/-- A validated LLM classification (`classify_with_gemini` output after its
field/enum validation).  `qtype` is `"type"`; the four lists are the
extracted fact arrays. -/
structure GeminiResult where
  qtype : PyStr
  needsExternal : Bool
  externalKind : PyStr
  globalInfo : List PyStr
  destInfo : List PyStr
  packInfo : List PyStr
  attrInfo : List PyStr

/-- The combined verdict: `confidence` is the dict's `"confidence_score"`,
`source` its `"primary_source"`. -/
structure CombinedResult where
  qtype : PyStr
  confidence : ℚ
  source : PyStr
  needsExternal : Bool
  externalKind : PyStr
  globalInfo : List PyStr
  destInfo : List PyStr
  packInfo : List PyStr
  attrInfo : List PyStr

/-- `QueryClassifier.combine_classifications` (the non-exceptional path;
the validated LLM result always carries `external_data_needed`, so the
external-data fields and all fact arrays are copied from it). -/
def combineClassifications (g : GeminiResult) (p : PatternResult) : CombinedResult :=
  if g.qtype = p.qtype then
    { qtype := g.qtype
      confidence := 8/10 + (2/10) * p.confidence + 3/10
      source := "consensus".toList
      needsExternal := g.needsExternal, externalKind := g.externalKind
      globalInfo := g.globalInfo, destInfo := g.destInfo
      packInfo := g.packInfo, attrInfo := g.attrInfo }
  else if (8:ℚ)/10 > (2/10) * p.confidence then
    { qtype := g.qtype
      confidence := 8/10
      source := "llm".toList
      needsExternal := g.needsExternal, externalKind := g.externalKind
      globalInfo := g.globalInfo, destInfo := g.destInfo
      packInfo := g.packInfo, attrInfo := g.attrInfo }
  else
    { qtype := p.qtype
      confidence := (2/10) * p.confidence
      source := "patterns".toList
      needsExternal := g.needsExternal, externalKind := g.externalKind
      globalInfo := g.globalInfo, destInfo := g.destInfo
      packInfo := g.packInfo, attrInfo := g.attrInfo }

end Classifier

section ClassifierClaims

/-- C4 — when the two verdicts' topics disagree and the fixed primary weight
0.8 exceeds 0.2 times the secondary's confidence, the combiner returns the
primary's topic with confidence exactly 0.8 and the primary-classifier
source label (the string `"llm"` in the code, which the specification's
abstract vocabulary calls `"primary"`). -/
theorem combiner_disagree_prefers_primary (g : GeminiResult) (p : PatternResult)
    (hne : g.qtype ≠ p.qtype) (hconf : (8:ℚ)/10 > (2/10) * p.confidence) :
    (combineClassifications g p).qtype = g.qtype ∧
    (combineClassifications g p).confidence = 8/10 ∧
    (combineClassifications g p).source = "llm".toList := by
  unfold combineClassifications
  rw [if_neg hne, if_pos hconf]
  exact ⟨rfl, rfl, rfl⟩

def gExC4 : GeminiResult :=
  { qtype := "packing_suggestions".toList
    needsExternal := true, externalKind := "weather".toList
    globalInfo := [], destInfo := [], packInfo := [], attrInfo := [] }

def pExC4 : PatternResult :=
  { qtype := "destination_recommendations".toList
    confidence := 3/5
    needsExternal := false, externalKind := "none".toList }

theorem combiner_disagree_prefers_primary_witness :
    gExC4.qtype ≠ pExC4.qtype ∧
    ((8:ℚ)/10 > (2/10) * pExC4.confidence) ∧
    ((combineClassifications gExC4 pExC4).qtype = gExC4.qtype ∧
     (combineClassifications gExC4 pExC4).confidence = 8/10 ∧
     (combineClassifications gExC4 pExC4).source = "llm".toList) :=
  ⟨by decide,
   by show (8:ℚ)/10 > (2/10) * (3/5); norm_num,
   combiner_disagree_prefers_primary gExC4 pExC4 (by decide)
     (by show (8:ℚ)/10 > (2/10) * (3/5); norm_num)⟩

def gExC5 : GeminiResult :=
  { qtype := "local_attractions".toList
    needsExternal := false, externalKind := "none".toList
    globalInfo := [], destInfo := [], packInfo := [], attrInfo := [] }

def pExC5 : PatternResult :=
  { qtype := "local_attractions".toList
    confidence := 1/2
    needsExternal := false, externalKind := "none".toList }

/-- C5 counterexample — in the consensus case with secondary confidence 0.5,
the combiner's confidence is 0.8 + 0.2·0.5 + 0.3 = 1.2, which is outside
[0, 1]: the claimed unit-interval invariant fails. -/
theorem combiner_confidence_unit_claim_false :
    (combineClassifications gExC5 pExC5).confidence = 6/5 ∧
    ¬ ((combineClassifications gExC5 pExC5).confidence ≤ 1) := by
  have h : (combineClassifications gExC5 pExC5).confidence =
      8/10 + (2/10) * (1/2) + 3/10 := by
    unfold combineClassifications
    rw [if_pos (show gExC5.qtype = pExC5.qtype by decide)]
    rfl
  constructor
  · rw [h]; norm_num
  · rw [h]; norm_num

/-- C5 (amended) — for every pair of verdicts with secondary confidence in
[0, 2] (which always holds for the pattern classifier, see the C9 theorem),
the combiner's confidence lies in [0, 1.5]; the consensus branch equals
1.1 + 0.2·confidence and can exceed 1, so [0, 1] is not an invariant. -/
theorem combiner_confidence_bounds (g : GeminiResult) (p : PatternResult)
    (h0 : 0 ≤ p.confidence) (h2 : p.confidence ≤ 2) :
    0 ≤ (combineClassifications g p).confidence ∧
    (combineClassifications g p).confidence ≤ 3/2 := by
  unfold combineClassifications
  split_ifs with h1 hgt
  · constructor
    · show (0:ℚ) ≤ 8/10 + (2/10) * p.confidence + 3/10
      nlinarith
    · show (8:ℚ)/10 + (2/10) * p.confidence + 3/10 ≤ 3/2
      nlinarith
  · exact ⟨by norm_num, by norm_num⟩
  · constructor
    · show (0:ℚ) ≤ (2/10) * p.confidence
      nlinarith
    · show (2:ℚ)/10 * p.confidence ≤ 3/2
      nlinarith

theorem combiner_confidence_bounds_witness :
    (0 ≤ pExC5.confidence) ∧ (pExC5.confidence ≤ 2) ∧
    (0 ≤ (combineClassifications gExC5 pExC5).confidence ∧
     (combineClassifications gExC5 pExC5).confidence ≤ 3/2) :=
  ⟨by show (0:ℚ) ≤ 1/2; norm_num,
   by show (1:ℚ)/2 ≤ 2; norm_num,
   combiner_confidence_bounds gExC5 pExC5
     (by show (0:ℚ) ≤ 1/2; norm_num) (by show (1:ℚ)/2 ≤ 2; norm_num)⟩

theorem typeScore_lt_two (ql : PyStr) (kws phs : List PyStr)
    (hk : 0 < kws.length) : typeScore ql kws phs < 2 := by
  unfold typeScore
  have htot : ¬(kws.length + phs.length = 0) := by omega
  rw [if_neg htot]
  have hpos : (0:ℚ) < ((kws.length + phs.length : ℕ) : ℚ) := by
    have : 0 < kws.length + phs.length := by omega
    exact_mod_cast this
  rw [div_lt_iff₀ hpos]
  have ha : ((kws.filter fun kw => pyContains ql kw).length : ℚ) ≤ (kws.length : ℚ) := by
    exact_mod_cast List.length_filter_le _ _
  have hb : ((phs.filter fun ph => pyContains ql ph).length : ℚ) ≤ (phs.length : ℚ) := by
    exact_mod_cast List.length_filter_le _ _
  have hk' : (1:ℚ) ≤ (kws.length : ℚ) := by exact_mod_cast hk
  push_cast
  nlinarith

theorem pattern_confidence_cases (q : PyStr) :
    (classifyWithPatterns q).confidence = 1/10 ∨
    (classifyWithPatterns q).confidence = typeScore (pyLower q) destKeywords destPhrases ∨
    (classifyWithPatterns q).confidence = typeScore (pyLower q) packKeywords packPhrases ∨
    (classifyWithPatterns q).confidence = typeScore (pyLower q) attrKeywords attrPhrases := by
  show (bestWithDefault q).2 = _ ∨ (bestWithDefault q).2 = _ ∨
    (bestWithDefault q).2 = _ ∨ (bestWithDefault q).2 = _
  unfold bestWithDefault bestCandidate argmaxStep
  split_ifs <;> simp

theorem pattern_qtype_cases (q : PyStr) :
    (classifyWithPatterns q).qtype = "destination_recommendations".toList ∨
    (classifyWithPatterns q).qtype = "packing_suggestions".toList ∨
    (classifyWithPatterns q).qtype = "local_attractions".toList := by
  show (bestWithDefault q).1 = _ ∨ (bestWithDefault q).1 = _ ∨ (bestWithDefault q).1 = _
  unfold bestWithDefault bestCandidate argmaxStep
  split_ifs <;> simp

/-- C9 — for every input query the pattern classifier's normalized
confidence is strictly below 2 (each topic's score is at most
(keywords + 2·phrases)/(keywords + phrases) for its fixed pattern table),
hence 0.2·confidence < 0.8 always holds, and whenever the primary
classification succeeded and the two topics disagree the combiner never
takes the secondary branch: it returns the primary's topic with the
primary source label `"llm"`, never `"patterns"`. -/
theorem pattern_secondary_branch_unreachable (q : PyStr) :
    (classifyWithPatterns q).confidence < 2 ∧
    (2:ℚ)/10 * (classifyWithPatterns q).confidence < 8/10 ∧
    (∀ g : GeminiResult, g.qtype ≠ (classifyWithPatterns q).qtype →
      (combineClassifications g (classifyWithPatterns q)).qtype = g.qtype ∧
      (combineClassifications g (classifyWithPatterns q)).source = "llm".toList ∧
      (combineClassifications g (classifyWithPatterns q)).source ≠ "patterns".toList) := by
  have h2 : (classifyWithPatterns q).confidence < 2 := by
    rcases pattern_confidence_cases q with h | h | h | h <;> rw [h]
    · norm_num
    · exact typeScore_lt_two _ _ _ (by decide)
    · exact typeScore_lt_two _ _ _ (by decide)
    · exact typeScore_lt_two _ _ _ (by decide)
  have hmul : (2:ℚ)/10 * (classifyWithPatterns q).confidence < 8/10 := by
    nlinarith
  refine ⟨h2, hmul, ?_⟩
  intro g hne
  have hcomb := combiner_disagree_prefers_primary g (classifyWithPatterns q) hne
    (by rw [gt_iff_lt]; calc (2:ℚ)/10 * (classifyWithPatterns q).confidence
          < 8/10 := hmul)
  refine ⟨hcomb.1, hcomb.2.2, ?_⟩
  rw [hcomb.2.2]
  decide

def gExC9 : GeminiResult :=
  { qtype := "x".toList
    needsExternal := false, externalKind := "none".toList
    globalInfo := [], destInfo := [], packInfo := [], attrInfo := [] }

theorem pattern_secondary_branch_unreachable_witness :
    gExC9.qtype ≠ (classifyWithPatterns "hello".toList).qtype ∧
    ((combineClassifications gExC9 (classifyWithPatterns "hello".toList)).qtype =
        gExC9.qtype ∧
     (combineClassifications gExC9 (classifyWithPatterns "hello".toList)).source =
        "llm".toList ∧
     (combineClassifications gExC9 (classifyWithPatterns "hello".toList)).source ≠
        "patterns".toList) := by
  have hne : gExC9.qtype ≠ (classifyWithPatterns "hello".toList).qtype := by
    intro h
    rcases pattern_qtype_cases "hello".toList with hc | hc | hc <;>
      rw [hc] at h <;> revert h <;> decide
  exact ⟨hne, (pattern_secondary_branch_unreachable "hello".toList).2.2 gExC9 hne⟩

end ClassifierClaims

section Completeness

/-!
## Information completeness scorer — `_analyze_information_completeness`
(src/handlers/attractions_handler.py 100–181, destination_handler.py 118–201,
packing_handler.py 120–203)

Each handler scores its four critical-information categories as
`|required keys present| / |required keys|` against the flat
`available_info` map and averages the category scores unweighted.
-/

/-- Python `keyword in available_info` (dict-key membership). -/
def containsKey (avail : List (PyStr × PyStr)) (k : PyStr) : Bool :=
  (getKey avail k).isSome

/-- `category_score = len(found_items) / len(keywords)`. -/
def categoryScore (avail : List (PyStr × PyStr)) (kws : List PyStr) : ℚ :=
  ((kws.filter fun k => containsKey avail k).length : ℚ) / (kws.length : ℚ)

/-- `overall_score = sum(category scores) / len(category_scores)`. -/
def overallScore (cats : List (List PyStr)) (avail : List (PyStr × PyStr)) : ℚ :=
  ((cats.map (categoryScore avail)).sum) / ((cats.length : ℕ) : ℚ)

/-- `AttractionsHandler.critical_info_categories`. -/
def attractionsCategories : List (List PyStr) :=
  [["destination", "region", "continent"],
   ["time_available", "duration", "travel_dates"],
   ["interests", "activities", "budget_per_activity"],
   ["mobility", "accessibility_needs", "group_size"]].map (List.map String.toList)

/-- `DestinationHandler.critical_info_categories`. -/
def destinationCategories : List (List PyStr) :=
  [["destination", "region", "continent", "climate_preference"],
   ["budget", "duration", "travel_dates", "group_size"],
   ["interests", "travel_style", "constraints"],
   ["activities", "accessibility_needs", "visa_requirements"]].map
    (List.map String.toList)

/-- `PackingHandler.critical_info_categories`. -/
def packingCategories : List (List PyStr) :=
  [["destination", "travel_dates", "duration"],
   ["activities", "interests", "travel_style"],
   ["luggage_type", "group_size", "constraints"],
   ["special_needs", "accessibility_needs", "laundry_availability"]].map
    (List.map String.toList)

theorem containsKey_append_mono (avail : List (PyStr × PyStr))
    (kv : PyStr × PyStr) (k : PyStr) (h : containsKey avail k = true) :
    containsKey (avail ++ [kv]) k = true := by
  unfold containsKey at h ⊢
  cases hg : getKey avail k with
  | none => rw [hg] at h; cases h
  | some w => rw [getKey_append_left hg]; rfl

theorem categoryScore_append_mono (avail : List (PyStr × PyStr))
    (kv : PyStr × PyStr) (kws : List PyStr) :
    categoryScore avail kws ≤ categoryScore (avail ++ [kv]) kws := by
  unfold categoryScore
  have hnum : (kws.filter fun k => containsKey avail k).length ≤
      (kws.filter fun k => containsKey (avail ++ [kv]) k).length := by
    rw [← List.countP_eq_length_filter, ← List.countP_eq_length_filter]
    exact List.countP_mono_left fun k _ hk => containsKey_append_mono avail kv k hk
  have hnum' : ((kws.filter fun k => containsKey avail k).length : ℚ) ≤
      ((kws.filter fun k => containsKey (avail ++ [kv]) k).length : ℚ) := by
    exact_mod_cast hnum
  gcongr

theorem overallScore_append_mono (cats : List (List PyStr))
    (avail : List (PyStr × PyStr)) (kv : PyStr × PyStr) :
    overallScore cats avail ≤ overallScore cats (avail ++ [kv]) := by
  unfold overallScore
  have hsum : (cats.map (categoryScore avail)).sum ≤
      (cats.map (categoryScore (avail ++ [kv]))).sum :=
    List.sum_le_sum fun c _ => categoryScore_append_mono avail kv c
  gcongr

/-- C8 — adding a previously-absent key to the facts map never decreases the
overall completeness score, for each handler's fixed category taxonomy
(|required keys present| / |required| per category, unweighted mean). -/
theorem completeness_monotone (avail : List (PyStr × PyStr)) (k v : PyStr)
    (habs : containsKey avail k = false) :
    overallScore attractionsCategories avail ≤
      overallScore attractionsCategories (avail ++ [(k, v)]) ∧
    overallScore destinationCategories avail ≤
      overallScore destinationCategories (avail ++ [(k, v)]) ∧
    overallScore packingCategories avail ≤
      overallScore packingCategories (avail ++ [(k, v)]) :=
  ⟨overallScore_append_mono _ avail (k, v),
   overallScore_append_mono _ avail (k, v),
   overallScore_append_mono _ avail (k, v)⟩

theorem completeness_monotone_witness :
    containsKey [] "destination".toList = false ∧
    (overallScore attractionsCategories [] ≤
      overallScore attractionsCategories ([] ++ [("destination".toList, "Paris".toList)]) ∧
     overallScore destinationCategories [] ≤
      overallScore destinationCategories ([] ++ [("destination".toList, "Paris".toList)]) ∧
     overallScore packingCategories [] ≤
      overallScore packingCategories ([] ++ [("destination".toList, "Paris".toList)])) :=
  ⟨by decide, completeness_monotone [] _ _ (by decide)⟩

end Completeness

section WeatherGate

/-!
## Weather relevance gate — `PackingHandler._assess_weather_data_relevance`
(src/handlers/packing_handler.py 296–371) and
`_is_trip_within_weather_relevance_window` (373–412).
-/

/-- The cached weather payload as far as the gate inspects it:
`success`, whether `current_weather.temperature` is missing/`'N/A'`,
and the number of forecast entries. -/
structure WeatherPayload where
  success : Bool
  current_temp_is_na : Bool
  forecast_count : Nat

/-- `"weather" in external_data and external_data["weather"].get("success")`:
`none` models the `"weather"` key being absent. -/
def hasWeather : Option WeatherPayload → Bool
  | some w => w.success
  | none => false

def immediateIndicators : List PyStr :=
  ["tomorrow", "today", "this week", "coming week", "next few days",
   "leaving tomorrow", "departing today", "traveling tomorrow"].map String.toList

/-- `PackingHandler._is_trip_within_weather_relevance_window`. -/
def isTripWithinWindow (avail : List (PyStr × PyStr)) (q : PyStr)
    (globalCtx : List PyStr) : Bool :=
  if immediateIndicators.any fun ind => pyContains (pyLower q) ind then true
  else if globalCtx.any fun item =>
      pyContains (pyLower item) "travel_dates:".toList &&
      (match splitColon1 item with
       | some kv =>
         immediateIndicators.any fun ind => pyContains (pyLower (pyStrip kv.2)) ind
       | none => false) then true
  else
    match getKey avail "travel_dates".toList with
    | some d => immediateIndicators.any fun ind => pyContains (pyLower d) ind
    | none => false

/-- `any(weather_query_indicators)`: the explicit current-weather vocabulary. -/
def currentQueryFlag (q : PyStr) : Bool :=
  (["current weather", "today", "now", "right now"].map String.toList).any
    fun s => pyContains (pyLower q) s

/-- The `data_freshness` annotation (it does not influence `use_weather`). -/
def freshnessOf : Option WeatherPayload → PyStr
  | some w =>
    if !w.current_temp_is_na && decide (0 < w.forecast_count) then "current".toList
    else "limited".toList
  | none => "unknown".toList

structure WeatherRelevance where
  use_weather : Bool
  weather_relevant : Bool
  temporal_relevance : PyStr
  data_freshness : PyStr

/-- `PackingHandler._assess_weather_data_relevance` (the fields that drive
behavior; the reason strings are omitted). -/
def assessWeatherRelevance (ext : Option WeatherPayload) (globalCtx : List PyStr)
    (q : PyStr) (avail : List (PyStr × PyStr)) : WeatherRelevance :=
  if hasWeather ext = false then
    ⟨false, false, "unknown".toList, "unknown".toList⟩
  else if isTripWithinWindow avail q globalCtx then
    ⟨true, true, "near_term".toList, freshnessOf ext⟩
  else if currentQueryFlag q then
    ⟨true, true, "current_query".toList, freshnessOf ext⟩
  else
    ⟨false, false, "future_trip".toList, "unknown".toList⟩

end WeatherGate

section WeatherGateClaims

/-- A successful payload with no usable current reading (temperature `'N/A'`,
empty forecast). -/
def wpNoReading : WeatherPayload := ⟨true, true, 0⟩

/-- A fully usable payload. -/
def wpUsable : WeatherPayload := ⟨true, false, 5⟩

/-- C6 counterexample — the gate surfaces the weather payload for a
near-term utterance even when the payload has no usable current reading
(temperature `'N/A'`, no forecast entries): the "usable current reading"
condition of the claim is not enforced, it only downgrades the
`data_freshness` annotation to `"limited"`. -/
theorem weather_gate_usable_reading_claim_false :
    (assessWeatherRelevance (some wpNoReading) []
      "I\x27m leaving tomorrow, what should I pack".toList []).use_weather = true ∧
    wpNoReading.current_temp_is_na = true ∧
    wpNoReading.forecast_count = 0 ∧
    (assessWeatherRelevance (some wpNoReading) []
      "I\x27m leaving tomorrow, what should I pack".toList []).data_freshness =
      "limited".toList := by
  refine ⟨by decide, rfl, rfl, by decide⟩

/-- C6 (amended) — the weather payload is surfaced (`use_weather = true`)
exactly when the cached payload exists and reports success and the temporal
check passes: a near-term vocabulary match in the utterance or stored
context, or an explicit current-weather vocabulary match.  (A usable current
reading is *not* required; it only affects the freshness annotation.)
In particular `"what should I pack for my trip next March"` yields
`use_weather = false` and `"I'm leaving tomorrow, what should I pack"`
yields `use_weather = true`. -/
theorem weather_gate_rule (ext : Option WeatherPayload) (globalCtx : List PyStr)
    (q : PyStr) (avail : List (PyStr × PyStr)) :
    ((assessWeatherRelevance ext globalCtx q avail).use_weather = true ↔
      hasWeather ext = true ∧
        (isTripWithinWindow avail q globalCtx = true ∨ currentQueryFlag q = true)) ∧
    (assessWeatherRelevance (some wpUsable) []
      "what should I pack for my trip next March".toList []).use_weather = false ∧
    (assessWeatherRelevance (some wpUsable) []
      "I\x27m leaving tomorrow, what should I pack".toList []).use_weather = true := by
  refine ⟨?_, by decide, by decide⟩
  unfold assessWeatherRelevance
  split_ifs with h1 h2 h3
  · simp only [Bool.not_eq_true] at h1
    simp [h1]
  · have h1' : hasWeather ext = true := by
      cases hhw : hasWeather ext
      · exact absurd hhw h1
      · rfl
    simp [h1', h2]
  · have h1' : hasWeather ext = true := by
      cases hhw : hasWeather ext
      · exact absurd hhw h1
      · rfl
    simp [h1', h3]
  · constructor
    · intro h; cases h
    · rintro ⟨_, h | h⟩
      · exact absurd h h2
      · exact absurd h h3

end WeatherGateClaims

section Strategy

/-!
## Adaptive strategy selectors — `_determine_response_strategy`
(destination_handler.py 337–403, packing_handler.py 414–491,
attractions_handler.py 345–426)

Only the strategy `type` field is modelled; the other dict fields (approach,
length target, …) never feed back into the selected type.  All control flow
that affects the type — the quality/score branch ladder and the
long-conversation escalation — is embedded.
-/

structure InfoAnalysis where
  information_quality : PyStr
  completeness_score : ℚ

structure ExtRelevance where
  use_weather : Bool
  use_attractions : Bool

def packingStrategyBase (ia : InfoAnalysis) (wr : WeatherRelevance) : PyStr :=
  if ia.information_quality = "minimal".toList ∨ ia.completeness_score < 3/10 then
    "question_focused".toList
  else if ia.information_quality = "partial".toList ∨ ia.completeness_score < 6/10 then
    (if wr.use_weather then "hybrid_with_weather".toList else "hybrid".toList)
  else if ia.information_quality = "sufficient".toList ∨ ia.completeness_score < 8/10 then
    "recommendation_focused".toList
  else
    "detailed_packing_list".toList

/-- `PackingHandler._determine_response_strategy` — the strategy type,
including the long-conversation escalation. -/
def packingStrategyType (ia : InfoAnalysis) (wr : WeatherRelevance)
    (convLen : Nat) : PyStr :=
  if 4 < convLen ∧ packingStrategyBase ia wr = "question_focused".toList then
    "hybrid".toList
  else packingStrategyBase ia wr

def destStrategyBase (ia : InfoAnalysis) (er : ExtRelevance) : PyStr :=
  if ia.information_quality = "minimal".toList ∨ ia.completeness_score < 3/10 then
    "question_focused".toList
  else if ia.information_quality = "partial".toList ∨ ia.completeness_score < 6/10 then
    "hybrid".toList
  else if ia.information_quality = "sufficient".toList ∨ ia.completeness_score < 8/10 then
    "recommendation_focused".toList
  else
    "detailed_planning".toList

/-- `DestinationHandler._determine_response_strategy` — the strategy type.
The external-relevance argument is received but never consulted. -/
def destStrategyType (ia : InfoAnalysis) (er : ExtRelevance) (convLen : Nat) : PyStr :=
  if 4 < convLen ∧ destStrategyBase ia er = "question_focused".toList then
    "hybrid".toList
  else destStrategyBase ia er

def attractionsStrategyBase (ia : InfoAnalysis) (er : ExtRelevance) : PyStr :=
  if ia.information_quality = "minimal".toList ∨ ia.completeness_score < 3/10 then
    "hybrid".toList
  else if ia.information_quality = "partial".toList ∨ ia.completeness_score < 6/10 then
    (if er.use_attractions then "hybrid_with_data".toList else "hybrid".toList)
  else if ia.information_quality = "sufficient".toList ∨ ia.completeness_score < 8/10 then
    "recommendation_focused".toList
  else
    "detailed_planning".toList

/-- `AttractionsHandler._determine_response_strategy` — the strategy type.
Only attractions usability is consulted; weather usability is ignored. -/
def attractionsStrategyType (ia : InfoAnalysis) (er : ExtRelevance)
    (convLen : Nat) : PyStr :=
  if 4 < convLen ∧ attractionsStrategyBase ia er = "question_focused".toList then
    "hybrid".toList
  else attractionsStrategyBase ia er

theorem strategy_partial_helper (ia : InfoAnalysis) (wr : WeatherRelevance)
    (er : ExtRelevance) (convLen : Nat)
    (hq : ia.information_quality = "partial".toList)
    (hs : 3/10 ≤ ia.completeness_score) :
    packingStrategyType ia wr convLen =
      (if wr.use_weather then "hybrid_with_weather".toList else "hybrid".toList) ∧
    attractionsStrategyType ia er convLen =
      (if er.use_attractions then "hybrid_with_data".toList else "hybrid".toList) ∧
    destStrategyType ia er convLen = "hybrid".toList := by
  have hnotmin : ¬(ia.information_quality = "minimal".toList ∨
      ia.completeness_score < 3/10) := by
    rintro (h | h)
    · rw [hq] at h; revert h; decide
    · linarith
  have hpart : ia.information_quality = "partial".toList ∨
      ia.completeness_score < 6/10 := Or.inl hq
  refine ⟨?_, ?_, ?_⟩
  · have hbase : packingStrategyBase ia wr =
        (if wr.use_weather then "hybrid_with_weather".toList else "hybrid".toList) := by
      unfold packingStrategyBase
      rw [if_neg hnotmin, if_pos hpart]
    unfold packingStrategyType
    rw [hbase]
    cases hw : wr.use_weather
    · rw [if_neg (by rintro ⟨_, h⟩; revert h; decide)]
    · rw [if_neg (by rintro ⟨_, h⟩; revert h; decide)]
  · have hbase : attractionsStrategyBase ia er =
        (if er.use_attractions then "hybrid_with_data".toList else "hybrid".toList) := by
      unfold attractionsStrategyBase
      rw [if_neg hnotmin, if_pos hpart]
    unfold attractionsStrategyType
    rw [hbase]
    cases ha : er.use_attractions
    · rw [if_neg (by rintro ⟨_, h⟩; revert h; decide)]
    · rw [if_neg (by rintro ⟨_, h⟩; revert h; decide)]
  · have hbase : destStrategyBase ia er = "hybrid".toList := by
      unfold destStrategyBase
      rw [if_neg hnotmin, if_pos hpart]
    unfold destStrategyType
    rw [hbase]
    rw [if_neg (by rintro ⟨_, h⟩; revert h; decide)]

def iaPartial : InfoAnalysis := ⟨"partial".toList, 1/2⟩

def erWeatherOnly : ExtRelevance := ⟨true, false⟩

/-- C7 counterexample — with a partial-tier analysis and the weather kind
usable per the gate, the destination handler still selects the plain
`"hybrid"` strategy (its selector never consults external relevance), and
the attractions handler also selects plain `"hybrid"` (it only consults
attractions usability): the claimed `hybrid_with_external` row fails for
these handlers. -/
theorem partial_external_strategy_claim_false :
    erWeatherOnly.use_weather = true ∧
    destStrategyType iaPartial erWeatherOnly 0 = "hybrid".toList ∧
    attractionsStrategyType iaPartial erWeatherOnly 0 = "hybrid".toList ∧
    "hybrid".toList ≠ "hybrid_with_weather".toList ∧
    "hybrid".toList ≠ "hybrid_with_data".toList := by
  have h := strategy_partial_helper iaPartial
    ⟨true, true, "near_term".toList, "current".toList⟩ erWeatherOnly 0
    rfl (by show (3:ℚ)/10 ≤ 1/2; norm_num)
  refine ⟨rfl, h.2.2, ?_, by decide, by decide⟩
  have h2 := h.2.1
  rwa [if_neg (by decide)] at h2

/-- C7 (amended) — in the partial tier the packing handler returns
`hybrid_with_weather` when the gate marks weather usable and `hybrid`
otherwise; the attractions handler returns `hybrid_with_data` when the gate
marks attractions usable (weather usability is ignored) and `hybrid`
otherwise; the destination handler always returns `hybrid`, never an
external variant. -/
theorem partial_tier_strategy (ia : InfoAnalysis) (wr : WeatherRelevance)
    (er : ExtRelevance) (convLen : Nat)
    (hq : ia.information_quality = "partial".toList)
    (hs : 3/10 ≤ ia.completeness_score) :
    packingStrategyType ia wr convLen =
      (if wr.use_weather then "hybrid_with_weather".toList else "hybrid".toList) ∧
    attractionsStrategyType ia er convLen =
      (if er.use_attractions then "hybrid_with_data".toList else "hybrid".toList) ∧
    destStrategyType ia er convLen = "hybrid".toList :=
  strategy_partial_helper ia wr er convLen hq hs

theorem partial_tier_strategy_witness :
    iaPartial.information_quality = "partial".toList ∧
    ((3:ℚ)/10 ≤ iaPartial.completeness_score) ∧
    (packingStrategyType iaPartial
        ⟨true, true, "near_term".toList, "current".toList⟩ 2 =
      (if (true : Bool) then "hybrid_with_weather".toList else "hybrid".toList) ∧
     attractionsStrategyType iaPartial erWeatherOnly 2 =
      (if (false : Bool) then "hybrid_with_data".toList else "hybrid".toList) ∧
     destStrategyType iaPartial erWeatherOnly 2 = "hybrid".toList) :=
  ⟨rfl, by show (3:ℚ)/10 ≤ 1/2; norm_num,
   partial_tier_strategy iaPartial
     ⟨true, true, "near_term".toList, "current".toList⟩ erWeatherOnly 2
     rfl (by show (3:ℚ)/10 ≤ 1/2; norm_num)⟩

end Strategy

section Routing

/-!
## Routing — `ConversationManager.route_to_handler`
(src/core/conversation_manager.py 49–121)

The manager looks the handler up by query type and calls its
`build_final_prompt`; for the destination and attractions handlers it passes
a `classification_result` keyword argument.  Python binds keyword arguments
against the callee's signature and raises `TypeError` before the body runs
when a keyword names no parameter; `route_to_handler` catches every
exception and returns its generic fallback prompt.  The handler bodies are
out of scope here and appear as abstract values: the routing decides which
one (if any) is returned.
-/

/-- Parameters of `DestinationHandler.build_final_prompt`
(destination_handler.py 56–58) — there is no `classification_result`. -/
def destinationPromptParams : List PyStr :=
  ["user_query", "global_context", "type_specific_context", "external_data",
   "recent_conversation"].map String.toList

/-- Parameters of `AttractionsHandler.build_final_prompt`
(attractions_handler.py 37–40). -/
def attractionsPromptParams : List PyStr :=
  ["user_query", "global_context", "type_specific_context", "external_data",
   "recent_conversation", "classification_result"].map String.toList

/-- Parameters of `PackingHandler.build_final_prompt`
(packing_handler.py 59–61). -/
def packingPromptParams : List PyStr :=
  ["user_query", "global_context", "type_specific_context", "external_data",
   "recent_conversation"].map String.toList

/-- The keyword arguments `route_to_handler` passes to the destination and
attractions handlers (conversation_manager.py 97–105). -/
def routeClassifKwargs : List PyStr :=
  ["user_query", "global_context", "type_specific_context", "external_data",
   "recent_conversation", "classification_result"].map String.toList

/-- The keyword arguments passed to the packing handler
(conversation_manager.py 107–114). -/
def routePlainKwargs : List PyStr :=
  ["user_query", "global_context", "type_specific_context", "external_data",
   "recent_conversation"].map String.toList

/-- Python keyword-argument binding: the call succeeds and returns the
callee's result iff every keyword names a parameter and every (non-default)
parameter receives a keyword; otherwise `TypeError` is raised before the
callee body runs. -/
def callKwargs (params kwargs : List PyStr) (body : PyStr) : Except PyStr PyStr :=
  if ((kwargs.all fun kw => params.contains kw) &&
      (params.all fun p => kwargs.contains p)) = true then Except.ok body
  else Except.error "TypeError: unexpected keyword argument".toList

/-- Python `repr` of a string without quotes/escapes in it. -/
def pyReprStr (s : PyStr) : PyStr := '\'' :: s ++ ['\'']

/-- Python `repr` of a list of such strings. -/
def pyReprList (l : List PyStr) : PyStr :=
  '[' :: (List.intercalate ", ".toList (l.map pyReprStr)) ++ [']']

/-- `ConversationManager._build_fallback_prompt` (124–142).  `extKeys`
models `list(external_data.keys())`. -/
def managerFallbackPrompt (user_query : PyStr) (g t extKeys : List PyStr) : PyStr :=
  (if g ≠ [] ∨ t ≠ [] then
    "You are a helpful travel assistant.\n\nUser query: \"".toList ++ user_query ++
      "\"\n\n".toList ++ "Context available: ".toList ++ pyReprList (g ++ t)
   else
    "You are a helpful travel assistant.\n\nUser query: \"".toList ++ user_query ++
      "\"\n\n".toList) ++
  "\n".toList ++
  (if extKeys ≠ [] then "External data: ".toList ++ pyReprList extKeys else []) ++
  "\n\nPlease provide helpful travel advice based on the available information.".toList

/-- `ConversationManager.route_to_handler`, with the three handlers'
`build_final_prompt` results abstracted as `destBody` / `attrsBody` /
`packBody` (the claim concerns which of them, if any, is returned). -/
def routeToHandler (query_type user_query : PyStr) (g t extKeys : List PyStr)
    (destBody attrsBody packBody : PyStr) : PyStr :=
  if query_type = "destination_recommendations".toList then
    match callKwargs destinationPromptParams routeClassifKwargs destBody with
    | Except.ok p => p
    | Except.error _ => managerFallbackPrompt user_query g t extKeys
  else if query_type = "local_attractions".toList then
    match callKwargs attractionsPromptParams routeClassifKwargs attrsBody with
    | Except.ok p => p
    | Except.error _ => managerFallbackPrompt user_query g t extKeys
  else if query_type = "packing_suggestions".toList then
    match callKwargs packingPromptParams routePlainKwargs packBody with
    | Except.ok p => p
    | Except.error _ => managerFallbackPrompt user_query g t extKeys
  else managerFallbackPrompt user_query g t extKeys

end Routing

section RoutingClaims

/-- C10 — `route_to_handler` passes a `classification_result` keyword that
`DestinationHandler.build_final_prompt` does not accept, so for every
destination query the call raises `TypeError`, the exception is caught, and
the generic manager fallback prompt is returned — never the destination
handler's strategically built prompt, whatever it would have been.  (By
contrast the attractions handler's signature does accept the keyword and
its call binds successfully, and the packing call binds as well.) -/
theorem destination_routing_always_falls_back (user_query : PyStr)
    (g t extKeys : List PyStr) (destBody attrsBody packBody : PyStr) :
    routeToHandler "destination_recommendations".toList user_query g t extKeys
        destBody attrsBody packBody =
      managerFallbackPrompt user_query g t extKeys ∧
    "classification_result".toList ∉ destinationPromptParams ∧
    "classification_result".toList ∈ routeClassifKwargs ∧
    callKwargs attractionsPromptParams routeClassifKwargs attrsBody =
      Except.ok attrsBody ∧
    callKwargs packingPromptParams routePlainKwargs packBody =
      Except.ok packBody := by
  have hfail : callKwargs destinationPromptParams routeClassifKwargs destBody =
      Except.error "TypeError: unexpected keyword argument".toList := by
    unfold callKwargs
    rw [if_neg (by decide)]
  have hok : callKwargs attractionsPromptParams routeClassifKwargs attrsBody =
      Except.ok attrsBody := by
    unfold callKwargs
    rw [if_pos (by decide)]
  have hok2 : callKwargs packingPromptParams routePlainKwargs packBody =
      Except.ok packBody := by
    unfold callKwargs
    rw [if_pos (by decide)]
  refine ⟨?_, by decide, by decide, hok, hok2⟩
  unfold routeToHandler
  rw [if_pos rfl, hfail]

end RoutingClaims

